import Mathlib

-- Shallow embedding of the corpus-vision monitoring subsystem.
--
-- The embedding covers:
--  * the per-frame body of `continuous_monitor_worker` in
--    src/continuous_waldo_monitor.py (aggregation-window state machine,
--    window close handling, novelty filter for speech),
--  * `EventStore.append` / `EventStore.recent` in src/event_store.py,
--  * `IngestPublisher.enqueue` in src/ingest_publisher.py.
--
-- Times are modelled as exact rationals (the Python code compares
-- `time.time()` floats).  External collaborators (camera read, JPEG
-- encoding, the ChangeOracle `process_frame_with_state`, AI analysis,
-- the store append and the speech call) are modelled as per-frame
-- oracle inputs: each frame input carries the outcome the collaborator
-- produced on that iteration.  An oracle outcome of `none` models the
-- call raising an exception.

namespace CorpusVision

-- A frame, as the base64 JPEG string the loop builds at line 145.
abbrev Frame := String

/-- Structured analysis result returned by `analyze_image_structured`
(the dict whose keys `observations`, `changes`, `novel`, `salience` are
read at lines 221-224 of src/continuous_waldo_monitor.py). -/
structure Structured where
  observations : Option String
  changes : Option String
  novel : Option String
  salience : Option String
deriving DecidableEq, Repr

/-- Outcome of a successful `self.vision.analyze_image_structured(img)`
call: a possibly-null description text plus the structured dict. -/
structure AnalysisRes where
  description : Option String
  structured : Structured
deriving DecidableEq, Repr

/-- The event record built at lines 213-226 of
src/continuous_waldo_monitor.py and handed to `event_store.append`.
The `ts_iso` field is omitted: it is a fixed ISO-8601 rendering of the
same `_agg_start_ts` timestamp that `tsMs` records. -/
structure Event where
  etype : String
  tsMs : ℤ
  durationMs : ℤ
  framesCount : ℕ
  confidenceHint : ℚ
  description : Option String
  observations : Option String
  changes : Option String
  novel : Option String
  salience : Option String
  source : String
deriving DecidableEq, Repr

/-- Observable side effects of one iteration of the monitor loop, in
program order.  Log actions record `waldo_logger` calls; the others
record calls into collaborators. -/
inductive Action where
  | logFrameDebug
  | enqueueIngest
  | logAnalysis
  | logEventWindow
  | wsBroadcast
  | decodeAnalyze
  | logAnalysisError
  | persistAttempt
  | logAppendError
  | logSuppressed
  | logSpeak
  | speak
  | logNoveltyError
  | clearWindow
  | logMonitorError
  | sleepPause
deriving DecidableEq, Repr

/-- Mutable state of `ContinuousWaldoMonitor` that the worker loop
reads and writes: the three stats counters, the aggregation-window
fields and the novelty-filter fields (src/continuous_waldo_monitor.py,
`__init__`, lines 58-72). -/
structure MonitorState where
  framesProcessed : ℕ
  triggers : ℕ
  apiSaves : ℕ
  aggActive : Bool
  aggStartTs : ℚ
  aggLastTriggerTs : ℚ
  aggFrames : List Frame
  lastSummaryText : Option String
  lastSummaryTs : ℚ
deriving DecidableEq, Repr

/-- `_agg_max_duration = 5.0` (line 69). -/
def aggMaxDuration : ℚ := 5

/-- The quiet-gap literal `0.25` hard-coded in the close test at line
189 (`triggers_quiet = (current_time - self._agg_last_trigger_ts) > 0.25`). -/
def quietGap : ℚ := 1/4

/-- The `_quiet_threshold = 0.5` field set in `__init__` (line 70).
The close test at line 189 does not read it; it uses the literal
`quietGap` above. -/
def quietThresholdField : ℚ := 1/2

/-- Collaborator outcomes consulted only when a window closes on this
frame: the decode/analysis result (`none` models the try-block at lines
203-210 raising), presence of the websocket hub, whether
`event_store.append` succeeds, the speech-enabled config flag, the
`difflib.SequenceMatcher(...).ratio()` similarity function on the two
lowercased texts, and whether `speak_description` returns normally. -/
structure CloseCtx where
  analysis : Option AnalysisRes
  wsHub : Bool
  appendOk : Bool
  speechEnabled : Bool
  similarity : String → String → ℚ
  speakOk : Bool

/-- One successfully captured and JPEG-encoded frame together with the
collaborator outcomes of its loop iteration.  `oracle = none` models
`self.filter.process_frame_with_state` raising (caught by the outer
`except` at line 252); `oracle = some (trig, conf)` gives the
`should_trigger` decision and the confidence score. -/
structure FrameInput where
  t : ℚ
  oracle : Option (Bool × ℚ)
  frame : Frame
  ctx : CloseCtx

/-- A closed aggregation window: the snapshot of the frame list taken
at line 192, the event record built for it, and whether the store
append succeeded (`persisted`). -/
structure ClosedWindow where
  frames : List Frame
  event : Event
  persisted : Bool
deriving DecidableEq, Repr

/-- Python `int()` on a rational: truncation toward zero. -/
def pyInt (q : ℚ) : ℤ :=
  if 0 ≤ q then ⌊q⌋ else -⌊-q⌋

/-- Python `round()` to an integer: round half to even. -/
def bankersRound (q : ℚ) : ℤ :=
  let f := ⌊q⌋
  let frac := q - f
  if frac < 1/2 then f
  else if 1/2 < frac then f + 1
  else if Even f then f else f + 1

/-- Python `round(x, 1)`. -/
def pyRound1 (q : ℚ) : ℚ := (bankersRound (q * 10) : ℚ) / 10

/-- Lines 176-185: on `should_trigger` bump the trigger counter, open a
window if idle (start timestamp := now, frame list := []), update
`_agg_last_trigger_ts` and append the frame; otherwise bump the
api-saves counter. -/
def triggerPhase (s : MonitorState) (t : ℚ) (trig : Bool) (frame : Frame) : MonitorState :=
  if trig then
    let s1 := { s with triggers := s.triggers + 1 }
    let s2 :=
      if s1.aggActive then s1
      else { s1 with aggActive := true, aggStartTs := t, aggFrames := [] }
    { s2 with aggLastTriggerTs := t, aggFrames := s2.aggFrames ++ [frame] }
  else
    { s with apiSaves := s.apiSaves + 1 }

/-- Lines 187-191: the window-close test, evaluated after the trigger
update.  Quiet-close: decision false and more than `quietGap` seconds
since the last trigger.  Timeout-close: at least `aggMaxDuration`
seconds since the window start. -/
def closeConditionHolds (s : MonitorState) (t : ℚ) (trig : Bool) : Bool :=
  s.aggActive &&
    ((!trig && decide (t - s.aggLastTriggerTs > quietGap)) ||
      decide (t - s.aggStartTs ≥ aggMaxDuration))

/-- Lines 229-244: the novelty filter guarding `speak_description`.
Runs only when the description is truthy (non-null, non-empty) and
speech is enabled.  Suppression: similarity of the lowercased texts at
least 0.90 and less than 60 seconds since the last spoken summary.
When not suppressed, the description is spoken; the novelty fields are
updated only if the speech call returns normally. -/
def speechPhase (s : MonitorState) (t : ℚ) (ctx : CloseCtx) (desc : Option String) :
    MonitorState × List Action :=
  match desc with
  | none => (s, [])
  | some d =>
    if d = "" then (s, [])
    else if ctx.speechEnabled then
      let suppress :=
        match s.lastSummaryText with
        | some prev =>
            decide (ctx.similarity (d.toLower) (prev.toLower) ≥ 9/10) &&
              decide (t - s.lastSummaryTs < 60)
        | none => false
      if suppress then (s, [Action.logSuppressed])
      else if ctx.speakOk then
        ({ s with lastSummaryText := some d, lastSummaryTs := t },
          [Action.logSpeak, Action.speak])
      else (s, [Action.logSpeak, Action.speak, Action.logNoveltyError])
    else (s, [])

/-- Lines 187-246: the close handler.  When the close condition holds:
snapshot the frame list, compute `duration_ms` and `frames_count`, log
the event window, broadcast over the websocket hub if present, decode
and analyze the last frame (failure logged, description left null),
append the event record to the store (failure logged), run the novelty
filter / speech, and finally clear `_agg_active` and the frame list
(lines 245-246). -/
def closePhase (s : MonitorState) (t : ℚ) (trig : Bool) (conf : ℚ) (ctx : CloseCtx) :
    MonitorState × Option ClosedWindow × List Action :=
  if closeConditionHolds s t trig then
    let frames := s.aggFrames
    let windowMs := pyInt ((t - s.aggStartTs) * 1000)
    let broadcastActs := if ctx.wsHub then [Action.wsBroadcast] else []
    let analysisStep : Option String × Option Structured × List Action :=
      if frames.isEmpty then (none, none, [])
      else
        match ctx.analysis with
        | some r => (r.description, some r.structured, [Action.decodeAnalyze])
        | none => (none, none, [Action.decodeAnalyze, Action.logAnalysisError])
    let desc := analysisStep.1
    let structuredRes := analysisStep.2.1
    let ev : Event :=
      { etype := "waldo_event",
        tsMs := pyInt (s.aggStartTs * 1000),
        durationMs := windowMs,
        framesCount := frames.length,
        confidenceHint := pyRound1 conf,
        description := desc,
        observations := structuredRes.bind Structured.observations,
        changes := structuredRes.bind Structured.changes,
        novel := structuredRes.bind Structured.novel,
        salience := structuredRes.bind Structured.salience,
        source := "waldo_monitor" }
    let persistActs :=
      if ctx.appendOk then [Action.persistAttempt]
      else [Action.persistAttempt, Action.logAppendError]
    let sp := speechPhase s t ctx desc
    let s2 := { sp.1 with aggActive := false, aggFrames := [] }
    (s2, some ⟨frames, ev, ctx.appendOk⟩,
      Action.logEventWindow :: broadcastActs ++ analysisStep.2.2 ++ persistActs ++
        sp.2 ++ [Action.clearWindow])
  else (s, none, [])

/-- One iteration of the worker loop for a successfully captured and
encoded frame (lines 128-255): debug log every 30th frame, bump
`frames_processed`, forward the JPEG to the ingest publisher, call the
ChangeOracle; if the oracle raises, the outer handler logs the error
and sleeps (lines 252-255) and the iteration ends; otherwise run the
analysis log, the trigger update and the close handler. -/
def step (s : MonitorState) (inp : FrameInput) :
    MonitorState × Option ClosedWindow × List Action :=
  let dbgActs := if s.framesProcessed % 30 = 0 then [Action.logFrameDebug] else []
  let s0 := { s with framesProcessed := s.framesProcessed + 1 }
  match inp.oracle with
  | none =>
    (s0, none, dbgActs ++ [Action.enqueueIngest, Action.logMonitorError, Action.sleepPause])
  | some (trig, conf) =>
    let logActs := if trig || s0.framesProcessed % 30 = 0 then [Action.logAnalysis] else []
    let s1 := triggerPhase s0 inp.t trig inp.frame
    let cp := closePhase s1 inp.t trig conf inp.ctx
    (cp.1, cp.2.1, dbgActs ++ Action.enqueueIngest :: logActs ++ cp.2.2)

/-- The worker loop over a list of frame inputs, collecting the closed
windows in the order their windows closed. -/
def runMonitor (s : MonitorState) (inputs : List FrameInput) :
    MonitorState × List ClosedWindow :=
  match inputs with
  | [] => (s, [])
  | inp :: rest =>
    let r := step s inp
    let rr := runMonitor r.1 rest
    (rr.1, r.2.1.toList ++ rr.2)

/-- The state set up by `__init__` and `_reset_stats`: counters zero,
no active window, empty frame list, no previously spoken summary. -/
def initState : MonitorState :=
  { framesProcessed := 0, triggers := 0, apiSaves := 0, aggActive := false,
    aggStartTs := 0, aggLastTriggerTs := 0, aggFrames := [],
    lastSummaryText := none, lastSummaryTs := 0 }

/-- The frames of the inputs whose oracle decision was
`should_trigger = true`, in capture order. -/
def trueFrames (inputs : List FrameInput) : List Frame :=
  inputs.filterMap fun inp =>
    match inp.oracle with
    | some (true, _) => some inp.frame
    | _ => none

-- EventStore (src/event_store.py).  The log file is modelled as the
-- list of its lines; JSON serialization and parsing are parameters
-- (the code uses `json.dumps` / `json.loads`).

/-- Python `str.strip()`: remove whitespace from both ends. -/
def pyStrip (s : String) : String :=
  ⟨((s.data.dropWhile Char.isWhitespace).reverse.dropWhile Char.isWhitespace).reverse⟩

/-- `EventStore._read_all` (lines 24-38): strip each line, skip blanks,
parse the rest, silently dropping lines that fail to parse. -/
def readAll {α : Type} (parse : String → Option α) (lines : List String) : List α :=
  lines.filterMap fun line =>
    let t := pyStrip line
    if t = "" then none else parse t

/-- `EventStore.append` (lines 18-22): serialize the event and append
it as one new line at the end of the log. -/
def storeAppend {α : Type} (serialize : α → String) (lines : List String) (e : α) :
    List String :=
  lines ++ [serialize e]

/-- Appending a sequence of events one `append` call at a time. -/
def appendAll {α : Type} (serialize : α → String) (lines : List String) (es : List α) :
    List String :=
  es.foldl (storeAppend serialize) lines

/-- `EventStore.recent` (lines 40-42):
`events[-limit:] if limit and len(events) > limit else events`. -/
def recent {α : Type} (parse : String → Option α) (limit : ℕ) (lines : List String) :
    List α :=
  let events := readAll parse lines
  if limit ≠ 0 ∧ events.length > limit then events.drop (events.length - limit)
  else events

-- IngestPublisher (src/ingest_publisher.py).

/-- `queue.Queue(maxsize=100)` (line 18). -/
def ingestCapacity : ℕ := 100

/-- The publisher's configuration flags and its bounded queue, oldest
item first. -/
structure IngestState (β : Type) where
  enabled : Bool
  hasUrl : Bool
  wsAvailable : Bool
  q : List β
deriving DecidableEq, Repr

/-- The guard at line 82: enqueue is a no-op unless the publisher is
enabled, a URL is configured and the websockets module imported. -/
def relaySendable {β : Type} (p : IngestState β) : Bool :=
  p.enabled && p.hasUrl && p.wsAvailable

/-- `IngestPublisher.enqueue` (lines 81-95): non-blocking put; on a
full queue, drop the oldest item and retry the put, silently dropping
the new item if the queue is somehow still full. -/
def enqueue {β : Type} (p : IngestState β) (b : β) : IngestState β :=
  if relaySendable p = false then p
  else if p.q.length < ingestCapacity then { p with q := p.q ++ [b] }
  else
    let q1 := p.q.drop 1
    if q1.length < ingestCapacity then { p with q := q1 ++ [b] } else { p with q := q1 }

-- Concrete states and inputs used by witnesses and counterexamples.

/-- A state with one active window holding one frame, opened at time 0. -/
def closeState : MonitorState :=
  { framesProcessed := 1, triggers := 1, apiSaves := 0, aggActive := true,
    aggStartTs := 0, aggLastTriggerTs := 0, aggFrames := ["f0"],
    lastSummaryText := none, lastSummaryTs := 0 }

/-- Collaborator outcomes for a close where analysis succeeds. -/
def okCtx : CloseCtx :=
  { analysis := some ⟨some "a person at a desk", ⟨none, none, none, none⟩⟩,
    wsHub := true, appendOk := true, speechEnabled := false,
    similarity := fun _ _ => 0, speakOk := true }

/-- A quiet frame at time 1: decision false, more than the quiet gap
after the last trigger at time 0. -/
def quietInput : FrameInput :=
  { t := 1, oracle := some (false, 50), frame := "f1", ctx := okCtx }

/-- Number of active aggregation windows held by the engine: the state
has a single window slot, counted by its active flag. -/
def activeWindows (s : MonitorState) : ℕ := if s.aggActive then 1 else 0

/-- While the window is active its frame list is non-empty and at least
one trigger has been counted. -/
def aggInvariant (s : MonitorState) : Prop :=
  s.aggActive = true → (s.aggFrames ≠ [] ∧ 0 < s.triggers)

-- Concrete close with a failing decode.

/-- Collaborator outcomes where decode/analysis raises. -/
def failCtx : CloseCtx :=
  { analysis := none, wsHub := true, appendOk := true, speechEnabled := false,
    similarity := fun _ _ => 0, speakOk := true }

def failInput : FrameInput :=
  { t := 1, oracle := some (false, 50), frame := "f1", ctx := failCtx }

-- Concrete suppressed close.

/-- A state like `closeState` but with a previously spoken summary. -/
def spokenState : MonitorState :=
  { framesProcessed := 1, triggers := 1, apiSaves := 0, aggActive := true,
    aggStartTs := 0, aggLastTriggerTs := 0, aggFrames := ["f0"],
    lastSummaryText := some "a person at a desk", lastSummaryTs := 0 }

/-- Collaborator outcomes with speech enabled and a similarity oracle
that reports identical texts. -/
def speechCtx : CloseCtx :=
  { analysis := some ⟨some "a person at a desk", ⟨none, none, none, none⟩⟩,
    wsHub := false, appendOk := true, speechEnabled := true,
    similarity := fun _ _ => 1, speakOk := true }

def speechInput : FrameInput :=
  { t := 1, oracle := some (false, 50), frame := "f1", ctx := speechCtx }

/-- A frame whose oracle call raises. -/
def errorInput : FrameInput := { t := 1, oracle := none, frame := "f1", ctx := okCtx }

-- Helper lemmas about the phases of one loop iteration.

lemma triggerPhase_false (s : MonitorState) (t : ℚ) (f : Frame) :
    triggerPhase s t false f = { s with apiSaves := s.apiSaves + 1 } := rfl

lemma triggerPhase_true (s : MonitorState) (t : ℚ) (f : Frame) :
    triggerPhase s t true f =
      { s with
        triggers := s.triggers + 1,
        aggActive := true,
        aggStartTs := (if s.aggActive then s.aggStartTs else t),
        aggLastTriggerTs := t,
        aggFrames := (if s.aggActive then s.aggFrames else []) ++ [f] } := by
  by_cases h : s.aggActive <;> simp [triggerPhase, h]

lemma closePhase_not_close (s : MonitorState) (t : ℚ) (trig : Bool) (conf : ℚ)
    (ctx : CloseCtx) (h : closeConditionHolds s t trig = false) :
    closePhase s t trig conf ctx = (s, none, []) := by
  simp [closePhase, h]

lemma closePhase_close_isSome (s : MonitorState) (t : ℚ) (trig : Bool) (conf : ℚ)
    (ctx : CloseCtx) (h : closeConditionHolds s t trig = true) :
    (closePhase s t trig conf ctx).2.1.isSome := by
  simp [closePhase, h]

lemma closePhase_isSome_iff (s : MonitorState) (t : ℚ) (trig : Bool) (conf : ℚ)
    (ctx : CloseCtx) :
    (closePhase s t trig conf ctx).2.1.isSome ↔ closeConditionHolds s t trig = true := by
  by_cases h : closeConditionHolds s t trig
  · simp [closePhase_close_isSome, h]
  · simp only [Bool.not_eq_true] at h
    simp [closePhase_not_close, h]

lemma step_none (s : MonitorState) (inp : FrameInput) (h : inp.oracle = none) :
    step s inp = ({ s with framesProcessed := s.framesProcessed + 1 }, none,
      (if s.framesProcessed % 30 = 0 then [Action.logFrameDebug] else []) ++
        [Action.enqueueIngest, Action.logMonitorError, Action.sleepPause]) := by
  simp [step, h]

lemma step_some (s : MonitorState) (inp : FrameInput) (trig : Bool) (conf : ℚ)
    (h : inp.oracle = some (trig, conf)) :
    step s inp =
      (let s0 := { s with framesProcessed := s.framesProcessed + 1 }
       let s1 := triggerPhase s0 inp.t trig inp.frame
       let cp := closePhase s1 inp.t trig conf inp.ctx
       (cp.1, cp.2.1,
         (if s.framesProcessed % 30 = 0 then [Action.logFrameDebug] else []) ++
           Action.enqueueIngest ::
             (if trig || (s.framesProcessed + 1) % 30 = 0 then [Action.logAnalysis] else []) ++
               cp.2.2)) := by
  simp [step, h]

/-- C1: for a frame whose oracle call succeeds, the step closes a window
exactly when, in terms of the state before the frame, a window was
active and either the decision is false with more than the quiet gap
elapsed since the last trigger timestamp, or at least the maximum window
duration elapsed since the window start (the latter regardless of the
frame's trigger value); in particular no frame closes a window while
idle. -/
theorem window_close_iff (s : MonitorState) (inp : FrameInput) (trig : Bool) (conf : ℚ)
    (hor : inp.oracle = some (trig, conf)) :
    (step s inp).2.1 ≠ none ↔
      (s.aggActive = true ∧
        ((trig = false ∧ inp.t - s.aggLastTriggerTs > quietGap) ∨
          inp.t - s.aggStartTs ≥ aggMaxDuration)) := by
  rw [step_some s inp trig conf hor]
  simp only [Option.ne_none_iff_isSome, closePhase_isSome_iff]
  cases trig with
  | false =>
    simp [closeConditionHolds, triggerPhase_false, and_assoc]
  | true =>
    by_cases ha : s.aggActive
    · simp [closeConditionHolds, triggerPhase_true, ha]
    · simp only [Bool.not_eq_true] at ha
      simp [closeConditionHolds, triggerPhase_true, ha]
      norm_num [aggMaxDuration]

theorem window_close_iff_witness : (step closeState quietInput).2.1 ≠ none :=
  (window_close_iff closeState quietInput false 50 rfl).mpr
    (by norm_num [closeState, quietInput, quietGap])

-- Frame bookkeeping lemmas feeding the C2 and C3 theorems.

lemma trueFrames_append (l1 l2 : List FrameInput) :
    trueFrames (l1 ++ l2) = trueFrames l1 ++ trueFrames l2 := by
  simp [trueFrames, List.filterMap_append]

lemma trueFrames_cons_none (inp : FrameInput) (rest : List FrameInput)
    (h : inp.oracle = none) : trueFrames (inp :: rest) = trueFrames rest := by
  simp [trueFrames, h]

lemma trueFrames_cons_false (inp : FrameInput) (rest : List FrameInput) (conf : ℚ)
    (h : inp.oracle = some (false, conf)) : trueFrames (inp :: rest) = trueFrames rest := by
  simp [trueFrames, h]

lemma trueFrames_cons_true (inp : FrameInput) (rest : List FrameInput) (conf : ℚ)
    (h : inp.oracle = some (true, conf)) :
    trueFrames (inp :: rest) = inp.frame :: trueFrames rest := by
  simp [trueFrames, h]

lemma closePhase_close (s : MonitorState) (t : ℚ) (trig : Bool) (conf : ℚ)
    (ctx : CloseCtx) (h : closeConditionHolds s t trig = true) :
    (closePhase s t trig conf ctx).1.aggActive = false ∧
    (closePhase s t trig conf ctx).1.aggFrames = [] ∧
    (closePhase s t trig conf ctx).2.1.map ClosedWindow.frames = some s.aggFrames ∧
    (closePhase s t trig conf ctx).2.1.map (fun w => w.event.framesCount) =
      some s.aggFrames.length := by
  simp [closePhase, h]

lemma step_some_parts (s : MonitorState) (inp : FrameInput) (trig : Bool) (conf : ℚ)
    (h : inp.oracle = some (trig, conf)) :
    (step s inp).1 =
      (closePhase (triggerPhase { s with framesProcessed := s.framesProcessed + 1 }
        inp.t trig inp.frame) inp.t trig conf inp.ctx).1 ∧
    (step s inp).2.1 =
      (closePhase (triggerPhase { s with framesProcessed := s.framesProcessed + 1 }
        inp.t trig inp.frame) inp.t trig conf inp.ctx).2.1 := by
  rw [step_some s inp trig conf h]
  exact ⟨rfl, rfl⟩

/-- One-step frame conservation: the frames of a window closed by this
step plus the frames left in the live window equal the previous live
frames plus the frame of this step when its decision was true; the step
preserves `inactive implies empty frame list`; and any window it closes
records `frames_count` equal to the length of its frame snapshot. -/
lemma step_frames (s : MonitorState) (inp : FrameInput)
    (hs : s.aggActive = false → s.aggFrames = []) :
    (((step s inp).2.1.toList.map ClosedWindow.frames).flatten ++ (step s inp).1.aggFrames
      = s.aggFrames ++ trueFrames [inp]) ∧
    ((step s inp).1.aggActive = false → (step s inp).1.aggFrames = []) ∧
    ((step s inp).2.1.map (fun w => w.event.framesCount) =
      (step s inp).2.1.map (fun w => w.frames.length)) := by
  rcases horacle : inp.oracle with _ | ⟨trig, conf⟩
  · rw [step_none s inp horacle]
    refine ⟨?_, ?_, ?_⟩
    · simp [trueFrames, horacle]
    · simpa using hs
    · simp
  · obtain ⟨h1, h2⟩ := step_some_parts s inp trig conf horacle
    rw [h1, h2]
    have hframes : (triggerPhase { s with framesProcessed := s.framesProcessed + 1 }
        inp.t trig inp.frame).aggFrames =
        s.aggFrames ++ (if trig then [inp.frame] else []) := by
      cases trig with
      | false => simp [triggerPhase_false]
      | true =>
        rw [triggerPhase_true]
        by_cases ha : s.aggActive
        · simp [ha]
        · simp only [Bool.not_eq_true] at ha
          simp [ha, hs ha]
    have htf : trueFrames [inp] = (if trig then [inp.frame] else []) := by
      cases trig with
      | false => simp [trueFrames, horacle]
      | true => simp [trueFrames, horacle]
    by_cases hclose : closeConditionHolds (triggerPhase
        { s with framesProcessed := s.framesProcessed + 1 } inp.t trig inp.frame) inp.t trig
    · obtain ⟨hc1, hc2, hc3, hc4⟩ := closePhase_close _ inp.t trig conf inp.ctx hclose
      refine ⟨?_, fun _ => hc2, ?_⟩
      · rcases hw : (closePhase (triggerPhase
            { s with framesProcessed := s.framesProcessed + 1 } inp.t trig inp.frame)
            inp.t trig conf inp.ctx).2.1 with _ | w
        · rw [hw] at hc3; simp at hc3
        · rw [hw] at hc3
          simp only [Option.map_some'] at hc3
          have hwf : w.frames = (triggerPhase
              { s with framesProcessed := s.framesProcessed + 1 }
              inp.t trig inp.frame).aggFrames := by
            injection hc3
          simp [hwf, hc2, hframes, htf]
      · rcases hw : (closePhase (triggerPhase
            { s with framesProcessed := s.framesProcessed + 1 } inp.t trig inp.frame)
            inp.t trig conf inp.ctx).2.1 with _ | w
        · simp
        · rw [hw] at hc3 hc4
          simp only [Option.map_some'] at hc3 hc4 ⊢
          have hwf : w.frames = (triggerPhase
              { s with framesProcessed := s.framesProcessed + 1 }
              inp.t trig inp.frame).aggFrames := by injection hc3
          have hwc : w.event.framesCount = (triggerPhase
              { s with framesProcessed := s.framesProcessed + 1 }
              inp.t trig inp.frame).aggFrames.length := by injection hc4
          rw [hwc, hwf]
    · simp only [Bool.not_eq_true] at hclose
      rw [closePhase_not_close _ inp.t trig conf inp.ctx hclose]
      refine ⟨?_, ?_, by simp⟩
      · simp [hframes, htf]
      · intro hact
        have : (triggerPhase { s with framesProcessed := s.framesProcessed + 1 }
            inp.t trig inp.frame).aggFrames = s.aggFrames ++ (if trig then [inp.frame] else []) :=
          hframes
        cases trig with
        | false =>
          have hsa : s.aggActive = false := by
            simpa [triggerPhase_false] using hact
          simp [triggerPhase_false, hs hsa]
        | true =>
          exfalso
          rw [triggerPhase_true] at hact
          simp at hact

lemma runMonitor_cons (s : MonitorState) (inp : FrameInput) (rest : List FrameInput) :
    runMonitor s (inp :: rest) =
      ((runMonitor (step s inp).1 rest).1,
        (step s inp).2.1.toList ++ (runMonitor (step s inp).1 rest).2) := rfl

/-- Run-level frame conservation, by induction over the input stream. -/
lemma runMonitor_frames (inputs : List FrameInput) :
    ∀ s : MonitorState, (s.aggActive = false → s.aggFrames = []) →
      (((runMonitor s inputs).2.map ClosedWindow.frames).flatten ++
          (runMonitor s inputs).1.aggFrames = s.aggFrames ++ trueFrames inputs) ∧
      ((runMonitor s inputs).2.map (fun w => w.event.framesCount) =
        (runMonitor s inputs).2.map (fun w => w.frames.length)) := by
  induction inputs with
  | nil => intro s _; simp [runMonitor, trueFrames]
  | cons inp rest ih =>
    intro s hs
    obtain ⟨hcons, hinv, hcount⟩ := step_frames s inp hs
    obtain ⟨ihcons, ihcount⟩ := ih (step s inp).1 hinv
    rw [runMonitor_cons]
    constructor
    · have hsplit : trueFrames (inp :: rest) = trueFrames [inp] ++ trueFrames rest :=
        trueFrames_append [inp] rest
      simp only [List.map_append, List.flatten_append, List.append_assoc, hsplit]
      rw [ihcons]
      rw [← List.append_assoc, hcons, List.append_assoc]
    · simp only [List.map_append]
      rw [ihcount]
      rcases hw : (step s inp).2.1 with _ | w
      · simp
      · rw [hw] at hcount
        simp only [Option.map_some'] at hcount
        simpa using hcount

/-- C2: over every input stream from the initial state, the frames of
all closed windows followed by the frames still held in the live window
are exactly the frames of the `should_trigger = true` decisions, in
capture order (so a frame enters a window if and only if its decision
was true, order preserved), and every emitted event's `frames_count`
equals the length of its window's frame snapshot. -/
theorem window_frames_exact :
    (∀ inputs : List FrameInput,
      ((runMonitor initState inputs).2.map ClosedWindow.frames).flatten ++
          (runMonitor initState inputs).1.aggFrames = trueFrames inputs) ∧
    (∀ inputs : List FrameInput,
      (runMonitor initState inputs).2.map (fun w => w.event.framesCount) =
        (runMonitor initState inputs).2.map (fun w => w.frames.length)) := by
  constructor
  · intro inputs
    have := (runMonitor_frames inputs initState (by intro h; rfl)).1
    simpa [initState] using this
  · intro inputs
    exact (runMonitor_frames inputs initState (by intro h; rfl)).2

-- Aggregation-window invariants (C3).

lemma step_preserves_aggInvariant (s : MonitorState) (inp : FrameInput)
    (hinv : aggInvariant s) : aggInvariant (step s inp).1 := by
  rcases horacle : inp.oracle with _ | ⟨trig, conf⟩
  · rw [step_none s inp horacle]
    exact fun ha => hinv ha
  · obtain ⟨h1, _⟩ := step_some_parts s inp trig conf horacle
    rw [h1]
    by_cases hclose : closeConditionHolds (triggerPhase
        { s with framesProcessed := s.framesProcessed + 1 } inp.t trig inp.frame) inp.t trig
    · obtain ⟨hc1, _, _, _⟩ := closePhase_close _ inp.t trig conf inp.ctx hclose
      intro ha
      rw [hc1] at ha
      exact absurd ha (by simp)
    · rw [closePhase_not_close _ inp.t trig conf inp.ctx (by simpa using hclose)]
      cases trig with
      | true =>
        rw [triggerPhase_true]
        intro _
        constructor
        · simp
        · simp
      | false =>
        rw [triggerPhase_false]
        exact fun ha => hinv ha

lemma runMonitor_preserves_aggInvariant (inputs : List FrameInput) :
    ∀ s : MonitorState, aggInvariant s → aggInvariant (runMonitor s inputs).1 := by
  induction inputs with
  | nil => intro s hs; exact hs
  | cons inp rest ih =>
    intro s hs
    rw [runMonitor_cons]
    exact ih (step s inp).1 (step_preserves_aggInvariant s inp hs)

/-- C3: the engine holds at most one active aggregation window at any
time; the initial state satisfies the window invariant (active implies
a non-empty frame list and a positive trigger count); every per-frame
step, window close included, preserves the invariant; hence it holds
after every input stream from the initial state. -/
theorem single_active_window_invariant :
    (∀ s : MonitorState, activeWindows s ≤ 1) ∧
    aggInvariant initState ∧
    (∀ (s : MonitorState) (inp : FrameInput), aggInvariant s → aggInvariant (step s inp).1) ∧
    (∀ inputs : List FrameInput, aggInvariant (runMonitor initState inputs).1) := by
  refine ⟨?_, ?_, step_preserves_aggInvariant, ?_⟩
  · intro s
    unfold activeWindows
    split <;> norm_num
  · intro h
    exact absurd h (by simp [initState])
  · intro inputs
    exact runMonitor_preserves_aggInvariant inputs initState
      (fun h => absurd h (by simp [initState]))

theorem single_active_window_invariant_witness :
    aggInvariant (step closeState quietInput).1 :=
  single_active_window_invariant.2.2.1 closeState quietInput
    (by intro _; refine ⟨?_, ?_⟩ <;> simp [closeState])

-- Trace-shape lemmas for the close handler (C4).

lemma speech_acts_no_clear (s : MonitorState) (t : ℚ) (ctx : CloseCtx) (d : Option String) :
    Action.clearWindow ∉ (speechPhase s t ctx d).2 := by
  cases d with
  | none => simp [speechPhase]
  | some d =>
    rcases hls : s.lastSummaryText with _ | prev <;>
      simp only [speechPhase, hls] <;> split_ifs <;> simp

/-- In the close handler's side-effect trace, the window clear is the
final action and does not occur earlier. -/
lemma closePhase_trace_shape (s : MonitorState) (t : ℚ) (trig : Bool) (conf : ℚ)
    (ctx : CloseCtx) (h : closeConditionHolds s t trig = true) :
    ∃ pre : List Action, (closePhase s t trig conf ctx).2.2 = pre ++ [Action.clearWindow] ∧
      Action.clearWindow ∉ pre := by
  have hsp := speech_acts_no_clear s t ctx
  simp only [closePhase, h, if_true]
  refine ⟨_, rfl, ?_⟩
  intro hmem
  simp only [List.mem_append, List.mem_cons] at hmem
  rcases hmem with (((hx | hA) | hB) | hC) | hD
  · exact absurd hx (by decide)
  · revert hA; split <;> simp
  · revert hB
    rcases hemp : s.aggFrames.isEmpty <;> rcases han : ctx.analysis with _ | r <;> simp
  · revert hC; split <;> simp
  · exact hsp _ hD

lemma step_some_trace (s : MonitorState) (inp : FrameInput) (trig : Bool) (conf : ℚ)
    (h : inp.oracle = some (trig, conf)) :
    (step s inp).2.2 =
      (if s.framesProcessed % 30 = 0 then [Action.logFrameDebug] else []) ++
        Action.enqueueIngest ::
          (if trig || (s.framesProcessed + 1) % 30 = 0 then [Action.logAnalysis] else []) ++
            (closePhase (triggerPhase { s with framesProcessed := s.framesProcessed + 1 }
              inp.t trig inp.frame) inp.t trig conf inp.ctx).2.2 := by
  rw [step_some s inp trig conf h]

/-- C4 (amended): on every window close the step's post-state is idle
with an empty frame list, and the window clear is the final action of
the iteration's side-effect trace, occurring exactly once — so every
piece of downstream work (broadcast, decode/analysis, persistence,
speech) performed on close precedes the clear, and a new window can
begin on the next trigger. -/
theorem clear_window_after_downstream (s : MonitorState) (inp : FrameInput) (trig : Bool)
    (conf : ℚ) (hor : inp.oracle = some (trig, conf))
    (hw : (step s inp).2.1 ≠ none) :
    (step s inp).1.aggActive = false ∧ (step s inp).1.aggFrames = [] ∧
    ∃ pre : List Action, (step s inp).2.2 = pre ++ [Action.clearWindow] ∧
      Action.clearWindow ∉ pre := by
  obtain ⟨h1, h2⟩ := step_some_parts s inp trig conf hor
  have hclose : closeConditionHolds (triggerPhase
      { s with framesProcessed := s.framesProcessed + 1 } inp.t trig inp.frame) inp.t trig = true := by
    rw [← closePhase_isSome_iff _ _ _ conf inp.ctx, ← h2]
    exact Option.ne_none_iff_isSome.mp hw
  obtain ⟨hc1, hc2, _, _⟩ := closePhase_close _ inp.t trig conf inp.ctx hclose
  obtain ⟨pre, hpre, hnc⟩ := closePhase_trace_shape _ inp.t trig conf inp.ctx hclose
  refine ⟨by rw [h1]; exact hc1, by rw [h1]; exact hc2, ?_⟩
  have hdbg : Action.clearWindow ∉
      (if s.framesProcessed % 30 = 0 then [Action.logFrameDebug] else []) := by
    split <;> simp
  have hlog : Action.clearWindow ∉
      (if trig || (s.framesProcessed + 1) % 30 = 0 then [Action.logAnalysis] else []) := by
    split <;> simp
  refine ⟨(if s.framesProcessed % 30 = 0 then [Action.logFrameDebug] else []) ++
    Action.enqueueIngest ::
      (if trig || (s.framesProcessed + 1) % 30 = 0 then [Action.logAnalysis] else []) ++ pre,
    ?_, ?_⟩
  · rw [step_some_trace s inp trig conf hor, hpre]
    simp
  · intro hmem
    simp only [List.mem_append, List.mem_cons] at hmem
    rcases hmem with (hd | he | hl) | hp
    · exact hdbg hd
    · exact absurd he (by decide)
    · exact hlog hl
    · exact hnc hp

/-- C4 (counterexample): on this concrete close the websocket broadcast
— downstream work — happens strictly before the window clear in the
iteration's trace, so the engine does not clear the window before the
slow downstream work. -/
theorem clear_window_counterexample :
    (step closeState quietInput).2.1 ≠ none ∧
    (step closeState quietInput).2.2 =
      [Action.enqueueIngest, Action.logEventWindow, Action.wsBroadcast,
        Action.decodeAnalyze, Action.persistAttempt, Action.clearWindow] ∧
    (step closeState quietInput).2.2.indexOf Action.wsBroadcast <
      (step closeState quietInput).2.2.indexOf Action.clearWindow := by
  have htr : (step closeState quietInput).2.2 =
      [Action.enqueueIngest, Action.logEventWindow, Action.wsBroadcast,
        Action.decodeAnalyze, Action.persistAttempt, Action.clearWindow] := by
    simp [step, closeState, quietInput, okCtx, closePhase, closeConditionHolds,
      triggerPhase, speechPhase, quietGap, aggMaxDuration]
    norm_num
  refine ⟨?_, htr, ?_⟩
  · have hsome : (step closeState quietInput).2.1.isSome := by
      obtain ⟨_, h2⟩ := step_some_parts closeState quietInput false 50 rfl
      rw [h2, closePhase_isSome_iff]
      simp [closeConditionHolds, triggerPhase, closeState, quietInput, quietGap]
      norm_num
    exact Option.isSome_iff_ne_none.mp hsome
  · rw [htr]
    decide

theorem clear_window_after_downstream_witness :
    (step closeState quietInput).1.aggActive = false ∧
    (step closeState quietInput).1.aggFrames = [] ∧
    ∃ pre : List Action, (step closeState quietInput).2.2 = pre ++ [Action.clearWindow] ∧
      Action.clearWindow ∉ pre :=
  clear_window_after_downstream closeState quietInput false 50 rfl
    (by
      have hsome : (step closeState quietInput).2.1.isSome := by
        obtain ⟨_, h2⟩ := step_some_parts closeState quietInput false 50 rfl
        rw [h2, closePhase_isSome_iff]
        simp [closeConditionHolds, triggerPhase, closeState, quietInput, quietGap]
        norm_num
      exact Option.isSome_iff_ne_none.mp hsome)

-- Decode-failure behaviour of the close handler (C5).

lemma closePhase_decode_failure (s : MonitorState) (t : ℚ) (trig : Bool) (conf : ℚ)
    (ctx : CloseCtx) (h : closeConditionHolds s t trig = true)
    (hfail : ctx.analysis = none) (hemp : s.aggFrames.isEmpty = false) :
    (closePhase s t trig conf ctx).2.1.map ClosedWindow.persisted = some ctx.appendOk ∧
    (closePhase s t trig conf ctx).2.1.map (fun w => w.event.description) = some none ∧
    Action.logAnalysisError ∈ (closePhase s t trig conf ctx).2.2 ∧
    Action.persistAttempt ∈ (closePhase s t trig conf ctx).2.2 := by
  refine ⟨?_, ?_, ?_, ?_⟩ <;>
    · simp [closePhase, h, hfail, hemp]
      try (rcases happ : ctx.appendOk <;> simp)

/-- C5 (amended): when a window closes and decoding/analyzing its last
frame fails, the failure is logged, but the event record is still built
with a null description and handed to the EventStore append — it is
persisted exactly when the append call itself succeeds, not skipped. -/
theorem decode_failure_still_persists (s : MonitorState) (inp : FrameInput) (trig : Bool)
    (conf : ℚ) (hor : inp.oracle = some (trig, conf))
    (hfail : inp.ctx.analysis = none)
    (hne : s.aggFrames ≠ [] ∨ trig = true)
    (hw : (step s inp).2.1 ≠ none) :
    Action.logAnalysisError ∈ (step s inp).2.2 ∧
    Action.persistAttempt ∈ (step s inp).2.2 ∧
    (step s inp).2.1.map ClosedWindow.persisted = some inp.ctx.appendOk ∧
    (step s inp).2.1.map (fun w => w.event.description) = some none := by
  obtain ⟨h1, h2⟩ := step_some_parts s inp trig conf hor
  have hclose : closeConditionHolds (triggerPhase
      { s with framesProcessed := s.framesProcessed + 1 } inp.t trig inp.frame) inp.t trig = true := by
    rw [← closePhase_isSome_iff _ _ _ conf inp.ctx, ← h2]
    exact Option.ne_none_iff_isSome.mp hw
  have hemp : (triggerPhase { s with framesProcessed := s.framesProcessed + 1 }
      inp.t trig inp.frame).aggFrames.isEmpty = false := by
    cases trig with
    | true =>
      rw [triggerPhase_true]
      simp
    | false =>
      rw [triggerPhase_false]
      rcases hne with hne | hne
      · rcases hfr : s.aggFrames with _ | ⟨a, l⟩
        · exact absurd hfr hne
        · simp
      · exact absurd hne (by simp)
  obtain ⟨hp1, hp2, hp3, hp4⟩ :=
    closePhase_decode_failure _ inp.t trig conf inp.ctx hclose hfail hemp
  rw [step_some_trace s inp trig conf hor, h2]
  refine ⟨?_, ?_, hp1, hp2⟩ <;> simp only [List.mem_append]
  · exact Or.inr hp3
  · exact Or.inr hp4

/-- C5 (counterexample): on this concrete close the decode fails (the
analysis error is logged), yet an event record for the window is still
appended to the EventStore, with a null description — the code persists
the event rather than skipping persistence. -/
theorem decode_failure_counterexample :
    Action.logAnalysisError ∈ (step closeState failInput).2.2 ∧
    (step closeState failInput).2.1.map ClosedWindow.persisted = some true ∧
    (step closeState failInput).2.1.map (fun w => w.event.description) = some none := by
  refine ⟨?_, ?_, ?_⟩ <;>
    simp [step, closeState, failInput, failCtx, closePhase, closeConditionHolds,
      triggerPhase, speechPhase, quietGap, aggMaxDuration] <;>
    norm_num

theorem decode_failure_still_persists_witness :
    Action.logAnalysisError ∈ (step closeState failInput).2.2 ∧
    Action.persistAttempt ∈ (step closeState failInput).2.2 ∧
    (step closeState failInput).2.1.map ClosedWindow.persisted = some failCtx.appendOk ∧
    (step closeState failInput).2.1.map (fun w => w.event.description) = some none :=
  decode_failure_still_persists closeState failInput false 50 rfl rfl
    (Or.inl (by simp [closeState]))
    (by
      have hsome : (step closeState failInput).2.1.isSome := by
        obtain ⟨_, h2⟩ := step_some_parts closeState failInput false 50 rfl
        rw [h2, closePhase_isSome_iff]
        simp [closeConditionHolds, triggerPhase, closeState, failInput, quietGap]
        norm_num
      exact Option.isSome_iff_ne_none.mp hsome)

-- Novelty-filter behaviour (C6).

lemma triggerPhase_summary (s : MonitorState) (t : ℚ) (trig : Bool) (f : Frame) :
    (triggerPhase s t trig f).lastSummaryText = s.lastSummaryText ∧
    (triggerPhase s t trig f).lastSummaryTs = s.lastSummaryTs := by
  cases trig with
  | false => rw [triggerPhase_false]; exact ⟨rfl, rfl⟩
  | true => rw [triggerPhase_true]; exact ⟨rfl, rfl⟩

lemma speechPhase_suppress (s : MonitorState) (t : ℚ) (ctx : CloseCtx) (d prev : String)
    (hd : d ≠ "") (hsp : ctx.speechEnabled = true) (hprev : s.lastSummaryText = some prev)
    (hsim : ctx.similarity d.toLower prev.toLower ≥ 9/10) (ht : t - s.lastSummaryTs < 60) :
    speechPhase s t ctx (some d) = (s, [Action.logSuppressed]) := by
  simp [speechPhase, hd, hsp, hprev, hsim, ht]

lemma speechPhase_speak (s : MonitorState) (t : ℚ) (ctx : CloseCtx) (d prev : String)
    (hd : d ≠ "") (hsp : ctx.speechEnabled = true) (hok : ctx.speakOk = true)
    (hprev : s.lastSummaryText = some prev)
    (hnsupp : ¬(ctx.similarity d.toLower prev.toLower ≥ 9/10 ∧ t - s.lastSummaryTs < 60)) :
    speechPhase s t ctx (some d) =
      ({ s with lastSummaryText := some d, lastSummaryTs := t },
        [Action.logSpeak, Action.speak]) := by
  have hb : (decide (ctx.similarity d.toLower prev.toLower ≥ 9/10) &&
      decide (t - s.lastSummaryTs < 60)) = false := by
    rcases not_and_or.mp hnsupp with h | h <;> simp [h]
  simp [speechPhase, hd, hsp, hprev, hb, hok]

lemma closePhase_speech_parts (s : MonitorState) (t : ℚ) (trig : Bool) (conf : ℚ)
    (ctx : CloseCtx) (d : String) (st : Structured)
    (h : closeConditionHolds s t trig = true)
    (han : ctx.analysis = some ⟨some d, st⟩)
    (hemp : s.aggFrames.isEmpty = false) :
    (closePhase s t trig conf ctx).1.lastSummaryText =
      (speechPhase s t ctx (some d)).1.lastSummaryText ∧
    (closePhase s t trig conf ctx).1.lastSummaryTs =
      (speechPhase s t ctx (some d)).1.lastSummaryTs ∧
    (Action.speak ∈ (closePhase s t trig conf ctx).2.2 ↔
      Action.speak ∈ (speechPhase s t ctx (some d)).2) ∧
    (Action.logSuppressed ∈ (closePhase s t trig conf ctx).2.2 ↔
      Action.logSuppressed ∈ (speechPhase s t ctx (some d)).2) := by
  refine ⟨?_, ?_, ?_, ?_⟩
  · simp [closePhase, h, han, hemp]
  · simp [closePhase, h, han, hemp]
  · rcases hhub : ctx.wsHub <;> rcases happ : ctx.appendOk <;>
      simp [closePhase, h, han, hemp, hhub, happ]
  · rcases hhub : ctx.wsHub <;> rcases happ : ctx.appendOk <;>
      simp [closePhase, h, han, hemp, hhub, happ]

lemma step_trace_mem (s : MonitorState) (inp : FrameInput) (trig : Bool) (conf : ℚ)
    (hor : inp.oracle = some (trig, conf)) (a : Action)
    (ha1 : a ≠ Action.logFrameDebug) (ha2 : a ≠ Action.enqueueIngest)
    (ha3 : a ≠ Action.logAnalysis) :
    (a ∈ (step s inp).2.2 ↔
      a ∈ (closePhase (triggerPhase { s with framesProcessed := s.framesProcessed + 1 }
        inp.t trig inp.frame) inp.t trig conf inp.ctx).2.2) := by
  have hd : a ∉ (if s.framesProcessed % 30 = 0 then [Action.logFrameDebug] else []) := by
    split <;> simp [ha1]
  have hl : a ∉
      (if trig || (s.framesProcessed + 1) % 30 = 0 then [Action.logAnalysis] else []) := by
    split <;> simp [ha3]
  rw [step_some_trace s inp trig conf hor]
  simp only [List.mem_append, List.mem_cons]
  constructor
  · rintro ((h | h | h) | h)
    · exact absurd h hd
    · exact absurd h ha2
    · exact absurd h hl
    · exact h
  · intro h
    exact Or.inr h

/-- C6: when a window closes with a non-empty description, speech is
enabled, the speech call returns normally and a summary was previously
spoken, the step speaks the description if and only if it is not the
case that the lowercased similarity is at least 0.90 and less than 60
seconds elapsed since the last spoken summary; on suppression the
suppression is logged and the novelty state is unchanged, otherwise the
novelty state becomes the new description and the current time. -/
theorem novelty_filter_iff (s : MonitorState) (inp : FrameInput) (trig : Bool) (conf : ℚ)
    (d prev : String) (st : Structured)
    (hor : inp.oracle = some (trig, conf))
    (han : inp.ctx.analysis = some ⟨some d, st⟩)
    (hd : d ≠ "")
    (hsp : inp.ctx.speechEnabled = true)
    (hok : inp.ctx.speakOk = true)
    (hprev : s.lastSummaryText = some prev)
    (hne : s.aggFrames ≠ [] ∨ trig = true)
    (hw : (step s inp).2.1 ≠ none) :
    (Action.speak ∈ (step s inp).2.2 ↔
      ¬(inp.ctx.similarity d.toLower prev.toLower ≥ 9/10 ∧ inp.t - s.lastSummaryTs < 60)) ∧
    ((inp.ctx.similarity d.toLower prev.toLower ≥ 9/10 ∧ inp.t - s.lastSummaryTs < 60) →
      Action.logSuppressed ∈ (step s inp).2.2 ∧
      (step s inp).1.lastSummaryText = some prev ∧
      (step s inp).1.lastSummaryTs = s.lastSummaryTs) ∧
    (¬(inp.ctx.similarity d.toLower prev.toLower ≥ 9/10 ∧ inp.t - s.lastSummaryTs < 60) →
      (step s inp).1.lastSummaryText = some d ∧
      (step s inp).1.lastSummaryTs = inp.t) := by
  obtain ⟨h1, h2⟩ := step_some_parts s inp trig conf hor
  have hclose : closeConditionHolds (triggerPhase
      { s with framesProcessed := s.framesProcessed + 1 } inp.t trig inp.frame) inp.t trig = true := by
    rw [← closePhase_isSome_iff _ _ _ conf inp.ctx, ← h2]
    exact Option.ne_none_iff_isSome.mp hw
  have hemp : (triggerPhase { s with framesProcessed := s.framesProcessed + 1 }
      inp.t trig inp.frame).aggFrames.isEmpty = false := by
    cases trig with
    | true => rw [triggerPhase_true]; simp
    | false =>
      rw [triggerPhase_false]
      rcases hne with hne | hne
      · rcases hfr : s.aggFrames with _ | ⟨a, l⟩
        · exact absurd hfr hne
        · simp
      · exact absurd hne (by simp)
  obtain ⟨hsum1, hsum2⟩ := triggerPhase_summary
    { s with framesProcessed := s.framesProcessed + 1 } inp.t trig inp.frame
  have hprev1 : (triggerPhase { s with framesProcessed := s.framesProcessed + 1 }
      inp.t trig inp.frame).lastSummaryText = some prev := by rw [hsum1]; exact hprev
  obtain ⟨hc1, hc2, hc3, hc4⟩ := closePhase_speech_parts _ inp.t trig conf inp.ctx d st
    hclose han hemp
  have hspeak := step_trace_mem s inp trig conf hor Action.speak
    (by decide) (by decide) (by decide)
  have hsupp := step_trace_mem s inp trig conf hor Action.logSuppressed
    (by decide) (by decide) (by decide)
  by_cases hcond : inp.ctx.similarity d.toLower prev.toLower ≥ 9/10 ∧
      inp.t - s.lastSummaryTs < 60
  · have hspe : speechPhase (triggerPhase
        { s with framesProcessed := s.framesProcessed + 1 } inp.t trig inp.frame)
        inp.t inp.ctx (some d) =
        (triggerPhase { s with framesProcessed := s.framesProcessed + 1 }
          inp.t trig inp.frame, [Action.logSuppressed]) :=
      speechPhase_suppress _ inp.t inp.ctx d prev hd hsp hprev1 hcond.1
        (by rw [hsum2]; exact hcond.2)
    refine ⟨?_, fun _ => ⟨?_, ?_, ?_⟩, fun hn => absurd hcond hn⟩
    · rw [hspeak, hc3, hspe]
      simp [hcond]
    · rw [hsupp, hc4, hspe]
      simp
    · rw [h1, hc1, hspe]
      exact hprev1
    · rw [h1, hc2, hspe]
      exact hsum2
  · have hspe : speechPhase (triggerPhase
        { s with framesProcessed := s.framesProcessed + 1 } inp.t trig inp.frame)
        inp.t inp.ctx (some d) =
        ({ triggerPhase { s with framesProcessed := s.framesProcessed + 1 }
            inp.t trig inp.frame with
          lastSummaryText := some d,
          lastSummaryTs := inp.t },
          [Action.logSpeak, Action.speak]) :=
      speechPhase_speak _ inp.t inp.ctx d prev hd hsp hok hprev1
        (by rw [hsum2]; exact hcond)
    refine ⟨?_, fun hy => absurd hy hcond, fun _ => ⟨?_, ?_⟩⟩
    · rw [hspeak, hc3, hspe]
      simp [hcond]
    · rw [h1, hc1, hspe]
    · rw [h1, hc2, hspe]

theorem novelty_filter_iff_witness :
    (Action.speak ∈ (step spokenState speechInput).2.2 ↔
      ¬(speechCtx.similarity ("a person at a desk").toLower ("a person at a desk").toLower ≥ 9/10 ∧
        speechInput.t - spokenState.lastSummaryTs < 60)) ∧
    ((speechCtx.similarity ("a person at a desk").toLower ("a person at a desk").toLower ≥ 9/10 ∧
        speechInput.t - spokenState.lastSummaryTs < 60) →
      Action.logSuppressed ∈ (step spokenState speechInput).2.2 ∧
      (step spokenState speechInput).1.lastSummaryText = some "a person at a desk" ∧
      (step spokenState speechInput).1.lastSummaryTs = spokenState.lastSummaryTs) ∧
    (¬(speechCtx.similarity ("a person at a desk").toLower ("a person at a desk").toLower ≥ 9/10 ∧
        speechInput.t - spokenState.lastSummaryTs < 60) →
      (step spokenState speechInput).1.lastSummaryText = some "a person at a desk" ∧
      (step spokenState speechInput).1.lastSummaryTs = speechInput.t) :=
  novelty_filter_iff spokenState speechInput false 50 "a person at a desk"
    "a person at a desk" ⟨none, none, none, none⟩ rfl rfl (by decide) rfl rfl rfl
    (Or.inl (by simp [spokenState]))
    (by
      have hsome : (step spokenState speechInput).2.1.isSome := by
        obtain ⟨_, h2⟩ := step_some_parts spokenState speechInput false 50 rfl
        rw [h2, closePhase_isSome_iff]
        simp [closeConditionHolds, triggerPhase, spokenState, speechInput, quietGap]
        norm_num
      exact Option.isSome_iff_ne_none.mp hsome)

-- Oracle-exception behaviour (C7).

/-- C7 (amended): when the ChangeOracle call raises, the loop logs the
error, sleeps briefly and continues with the next frame; the iteration
is otherwise abandoned — no window is closed, no frame appended, and no
counter except `frames_processed` changes, the whole monitor state
being carried over unchanged. -/
theorem oracle_exception_skips_iteration (s : MonitorState) (inp : FrameInput)
    (h : inp.oracle = none) :
    (step s inp).1 = { s with framesProcessed := s.framesProcessed + 1 } ∧
    (step s inp).2.1 = none ∧
    Action.logMonitorError ∈ (step s inp).2.2 ∧
    Action.sleepPause ∈ (step s inp).2.2 := by
  rw [step_none s inp h]
  refine ⟨rfl, rfl, ?_, ?_⟩ <;> simp

theorem oracle_exception_skips_iteration_witness :
    (step closeState errorInput).1 =
      { closeState with framesProcessed := closeState.framesProcessed + 1 } ∧
    (step closeState errorInput).2.1 = none ∧
    Action.logMonitorError ∈ (step closeState errorInput).2.2 ∧
    Action.sleepPause ∈ (step closeState errorInput).2.2 :=
  oracle_exception_skips_iteration closeState errorInput rfl

/-- C7 (counterexample): with an active window whose quiet-close
condition holds at time 1 (as the last conjunct records), an oracle
exception neither increments the frames-saved counter nor evaluates the
close conditions: the step leaves `api_saves` at 0, the window open and
emits no event, contradicting the claim that the iteration is treated
as a `should_trigger = false` decision. -/
theorem oracle_exception_counterexample :
    (step closeState errorInput).1.apiSaves = 0 ∧
    closeState.apiSaves = 0 ∧
    (step closeState errorInput).1.aggActive = true ∧
    (step closeState errorInput).2.1 = none ∧
    closeConditionHolds closeState errorInput.t false = true := by
  refine ⟨rfl, rfl, rfl, rfl, ?_⟩
  simp [closeConditionHolds, closeState, errorInput, quietGap]
  norm_num

-- EventStore lemmas (C8, C10).

lemma appendAll_eq (serialize : α → String) (es : List α) :
    ∀ L : List String, appendAll serialize L es = L ++ es.map serialize := by
  induction es with
  | nil => intro L; simp [appendAll]
  | cons e rest ih =>
    intro L
    have h1 : appendAll serialize L (e :: rest) =
        appendAll serialize (storeAppend serialize L e) rest := rfl
    rw [h1, ih, storeAppend]
    simp

lemma readAll_append (parse : String → Option α) (l1 l2 : List String) :
    readAll parse (l1 ++ l2) = readAll parse l1 ++ readAll parse l2 := by
  simp [readAll, List.filterMap_append]

lemma readAll_cons (parse : String → Option α) (line : String) (rest : List String) :
    readAll parse (line :: rest) =
      (if pyStrip line = "" then none else parse (pyStrip line)).toList ++
        readAll parse rest := by
  simp only [readAll, List.filterMap_cons]
  split <;> simp_all

lemma readAll_serialized (parse : String → Option α) (serialize : α → String) :
    ∀ es : List α,
      (∀ e ∈ es, pyStrip (serialize e) = serialize e ∧ serialize e ≠ "" ∧
        parse (serialize e) = some e) →
      readAll parse (es.map serialize) = es := by
  intro es
  induction es with
  | nil => intro _; rfl
  | cons e rest ih =>
    intro hvalid
    obtain ⟨h1, h2, h3⟩ := hvalid e (by simp)
    have ihh := ih (fun x hx => hvalid x (by simp [hx]))
    rw [List.map_cons, readAll_cons, ihh, h1]
    simp [h2, h3]

/-- C8 (amended): appending any non-empty batch of valid events (ones
whose serialized line survives stripping, is non-blank, and parses back
to the event) to an arbitrary initial log and then calling `recent`
with the batch size returns exactly that batch, in order, with the
parsed records intact; and each single append only adds one line at the
end, leaving every prior line unchanged and in place. -/
theorem eventstore_roundtrip_appended (α : Type) (serialize : α → String)
    (parse : String → Option α) (L : List String) (es : List α)
    (hne : es ≠ [])
    (hvalid : ∀ e ∈ es, pyStrip (serialize e) = serialize e ∧ serialize e ≠ "" ∧
      parse (serialize e) = some e) :
    recent parse es.length (appendAll serialize L es) = es ∧
    (∀ (lines : List String) (e : α),
      (storeAppend serialize lines e).take lines.length = lines ∧
      (storeAppend serialize lines e).length = lines.length + 1) := by
  constructor
  · have hra : readAll parse (appendAll serialize L es) = readAll parse L ++ es := by
      rw [appendAll_eq, readAll_append, readAll_serialized parse serialize es hvalid]
    by_cases hL : readAll parse L = []
    · have hcond : ¬(es.length ≠ 0 ∧ (readAll parse L ++ es).length > es.length) := by
        rintro ⟨_, hgt⟩
        simp [hL] at hgt
      simp [recent, hra, hcond, hL]
    · have hlen : (readAll parse L ++ es).length > es.length := by
        have : 0 < (readAll parse L).length := List.length_pos.mpr hL
        simp [List.length_append]
        omega
      have hne' : es.length ≠ 0 := by
        simpa [List.length_eq_zero] using hne
      have hcond : es.length ≠ 0 ∧ (readAll parse L ++ es).length > es.length :=
        ⟨hne', hlen⟩
      have hgoal : recent parse es.length (appendAll serialize L es) =
          (readAll parse L ++ es).drop ((readAll parse L ++ es).length - es.length) := by
        simp only [recent, hra]
        rw [if_pos hcond]
      rw [hgoal, List.length_append, Nat.add_sub_cancel, List.drop_left]
  · intro lines e
    constructor
    · simp [storeAppend, List.take_left]
    · simp [storeAppend]

/-- C8 (counterexample): with one pre-existing record in the log and a
batch of zero appended events, `recent 0` returns the whole log, not
the empty batch — the claimed round-trip fails at N = 0. -/
theorem eventstore_roundtrip_counterexample :
    recent (fun s => some s) 0 (appendAll (fun s : String => s) ["7"] []) = ["7"] ∧
    (["7"] : List String) ≠ ([] : List String) := by
  decide

theorem eventstore_roundtrip_appended_witness :
    recent (fun s => some s) (["a", "b"] : List String).length
      (appendAll (fun s : String => s) ["7"] ["a", "b"]) = ["a", "b"] ∧
    (∀ (lines : List String) (e : String),
      (storeAppend (fun s : String => s) lines e).take lines.length = lines ∧
      (storeAppend (fun s : String => s) lines e).length = lines.length + 1) :=
  eventstore_roundtrip_appended String (fun s => s) (fun s => some s) ["7"] ["a", "b"]
    (by decide) (by decide)

-- IngestPublisher backpressure (C9).

/-- C9: on an enabled relay (enabled, URL configured, websockets
available), enqueue is a total function that keeps the queue at or
below the capacity of 100, always leaves the newly enqueued item at the
back of the queue, appends when below capacity, and on a full queue
drops the oldest item to admit the newest. -/
theorem ingest_enqueue_bounded (β : Type) (p : IngestState β) (b : β)
    (hen : relaySendable p = true) (hcap : p.q.length ≤ ingestCapacity) :
    (enqueue p b).q.length ≤ ingestCapacity ∧
    (enqueue p b).q.getLast? = some b ∧
    (p.q.length < ingestCapacity → (enqueue p b).q = p.q ++ [b]) ∧
    (p.q.length = ingestCapacity → (enqueue p b).q = p.q.drop 1 ++ [b]) := by
  by_cases hlt : p.q.length < ingestCapacity
  · have henq : (enqueue p b).q = p.q ++ [b] := by
      simp [enqueue, hen, hlt]
    refine ⟨?_, ?_, fun _ => henq, fun he => absurd he (by omega)⟩
    · rw [henq]
      simp only [List.length_append, List.length_singleton]
      omega
    · rw [henq]
      exact List.getLast?_concat _
  · have heq : p.q.length = ingestCapacity := le_antisymm hcap (not_lt.mp hlt)
    have hq1 : (p.q.drop 1).length < ingestCapacity := by
      simp only [List.length_drop, heq]
      norm_num [ingestCapacity]
    have henq : (enqueue p b).q = p.q.drop 1 ++ [b] := by
      have h0 : ¬(relaySendable p = false) := by simp [hen]
      simp only [enqueue]
      rw [if_neg h0, if_neg hlt, if_pos hq1]
    refine ⟨?_, ?_, fun hl => absurd hl hlt, fun _ => henq⟩
    · rw [henq]
      simp only [List.length_append, List.length_singleton, List.length_drop, heq]
      norm_num [ingestCapacity]
    · rw [henq]
      exact List.getLast?_concat _

theorem ingest_enqueue_bounded_witness :
    (enqueue (⟨true, true, true, [1, 2]⟩ : IngestState ℕ) 3).q.length ≤ ingestCapacity ∧
    (enqueue (⟨true, true, true, [1, 2]⟩ : IngestState ℕ) 3).q.getLast? = some 3 ∧
    (([1, 2] : List ℕ).length < ingestCapacity →
      (enqueue (⟨true, true, true, [1, 2]⟩ : IngestState ℕ) 3).q = [1, 2] ++ [3]) ∧
    (([1, 2] : List ℕ).length = ingestCapacity →
      (enqueue (⟨true, true, true, [1, 2]⟩ : IngestState ℕ) 3).q =
        ([1, 2] : List ℕ).drop 1 ++ [3]) :=
  ingest_enqueue_bounded ℕ ⟨true, true, true, [1, 2]⟩ 3 (by decide) (by decide)

-- Semantics of `recent` at and below the limit (C10).

/-- C10: `recent 0` returns all records of the log; whenever the limit
is 0 or the log holds at most `limit` records, `recent` returns the
whole parsed log; otherwise it returns exactly the last `limit` records
(a suffix of length `limit` whose complement is the prefix of older
records). -/
theorem recent_limit_semantics (α : Type) (parse : String → Option α)
    (lines : List String) (limit : ℕ) :
    recent parse 0 lines = readAll parse lines ∧
    ((readAll parse lines).length ≤ limit → recent parse limit lines = readAll parse lines) ∧
    (0 < limit → limit < (readAll parse lines).length →
      recent parse limit lines =
        (readAll parse lines).drop ((readAll parse lines).length - limit) ∧
      (recent parse limit lines).length = limit ∧
      (readAll parse lines).take ((readAll parse lines).length - limit) ++
        recent parse limit lines = readAll parse lines) := by
  refine ⟨?_, ?_, ?_⟩
  · simp [recent]
  · intro hle
    have hcond : ¬(limit ≠ 0 ∧ (readAll parse lines).length > limit) := by
      rintro ⟨_, hgt⟩
      omega
    simp [recent, hcond]
  · intro hpos hlt
    have hcond : limit ≠ 0 ∧ (readAll parse lines).length > limit := ⟨by omega, hlt⟩
    have hr : recent parse limit lines =
        (readAll parse lines).drop ((readAll parse lines).length - limit) := by
      simp [recent, hcond]
    refine ⟨hr, ?_, ?_⟩
    · rw [hr]
      simp only [List.length_drop]
      omega
    · rw [hr]
      exact List.take_append_drop _ _

theorem recent_limit_semantics_witness :
    recent (fun s : String => some s) 2 ["a", "b", "c"] =
      (readAll (fun s : String => some s) ["a", "b", "c"]).drop
        ((readAll (fun s : String => some s) ["a", "b", "c"]).length - 2) ∧
    (recent (fun s : String => some s) 2 ["a", "b", "c"]).length = 2 ∧
    (readAll (fun s : String => some s) ["a", "b", "c"]).take
        ((readAll (fun s : String => some s) ["a", "b", "c"]).length - 2) ++
      recent (fun s : String => some s) 2 ["a", "b", "c"] =
      readAll (fun s : String => some s) ["a", "b", "c"] :=
  (recent_limit_semantics String (fun s => some s) ["a", "b", "c"] 2).2.2
    (by decide) (by decide)

end CorpusVision
